import Mathlib

/-!
Verification development for the TransNeXt-based encoder/decoder network in
`Network.py` (repository TNUnet_PU).  The Python source is shallowly embedded:

* tensor shapes are tracked symbolically as tuples of naturals, and the
  forward pass of `TransNeXt.forward` becomes a partial shape function
  (`forwardTrace` / `forwardShape`) returning `none` exactly when a tensor
  operation of the source would raise a shape error;
* the pure precomputation helpers `get_relative_position_cpb` and
  `get_seqlen_and_mask` are embedded over `ℚ` (exact arithmetic in place of
  float32), with the sign-preserving log compression over `ℝ`;
* the softmax rows of `Attention.forward` and `AggregatedAttention.forward`
  are embedded over `ℝ` with `Real.exp`;
* the constructor assertions become `Except String Unit` checks;
* dropout / stochastic depth become explicit noise-stream parameters so that
  determinism statements are about independence from the stream.
-/

namespace TNUnet

/-- Configuration record of `TransNeXt.__init__` (the fields that determine
tensor shapes; `drop_rate`, `attn_drop_rate`, `drop_path_rate`, `qkv_bias`
and the norm layer never influence any shape).  The decoder of the source
(`up_features`, `up0`, `outc`) hard-codes four stages (`embed_dims[3-i]`,
`block{3-i}` …), so list fields are read with 0-based `getD` exactly as the
Python indexes its lists. -/
structure TNConfig where
  img_size : Nat
  patch_size : Nat
  in_chans : Nat
  num_classes : Nat
  embed_dims : List Nat
  num_heads : List Nat
  mlp_ratios : List Nat
  depths : List Nat
  window_size : List (Option Nat)
  sr_ratios : List Nat
  num_stages : Nat

/-- Spatial output size of `nn.Conv2d` (square kernel/stride/padding,
dilation 1): `floor((n + 2 pad - kernel) / stride) + 1`; `none` when the
output would be empty (PyTorch raises) or the stride is degenerate. -/
def conv2dOut (n kernel stride pad : Nat) : Option Nat :=
  if stride = 0 ∨ n + 2 * pad < kernel then none
  else some ((n + 2 * pad - kernel) / stride + 1)

/-- Shape semantics of `OverlapPatchEmbed.forward`: a strided conv followed
by flatten/transpose/LayerNorm (the latter shape-preserving).  Input and
output are `(C, H, W)` triples; the batch dimension is carried separately
by `forwardTrace` since no operation of the source changes it. -/
def patchEmbedShape (kernel stride pad inCh outCh : Nat)
    (s : Nat × Nat × Nat) : Option (Nat × Nat × Nat) :=
  if s.1 ≠ inCh then none else
  (conv2dOut s.2.1 kernel stride pad).bind fun h =>
  (conv2dOut s.2.2 kernel stride pad).bind fun w =>
  some (outCh, h, w)

/-- Construction-time resolution of stage `i` (0-based):
`img_size // (2 ** (i + 2))` from `TransNeXt.__init__`. -/
def consRes (cfg : TNConfig) (i : Nat) : Nat :=
  cfg.img_size / 2 ^ (i + 2)

/-- Token count of the key grid of `get_relative_position_cpb`:
`key_size = img_size // (2 ** (num_stages + 1))`, squared. -/
def keyLen (cfg : TNConfig) : Nat :=
  (cfg.img_size / 2 ^ (cfg.num_stages + 1)) * (cfg.img_size / 2 ^ (cfg.num_stages + 1))

/-- Shape admissibility of one transformer block of stage `i` on a token
tensor `[B, N, C]` (blocks are shape-preserving when admissible).  For
`sr_ratio == 1` the source builds `Attention`, whose `rel_bias` is produced
by `view(-1, N, N)` from `num_heads * N_q * N_k` elements and then
broadcast-added (leading size `num_heads` or `1`).  Otherwise it builds
`AggregatedAttention`, which requires a present odd `window_size`, a
non-empty pooled grid, the construction-time `seq_length_scale` /
`padding_mask` buffers (leading size `consN`) to broadcast against the `N`
actual tokens, and `pool_bias = …view(-1, N, pool_len)` to be a legal view
with a broadcastable leading size. -/
def stageAttnOk (cfg : TNConfig) (i N : Nat) : Bool :=
  let dim := cfg.embed_dims.getD i 0
  let heads := cfg.num_heads.getD i 1
  let sr := cfg.sr_ratios.getD i 1
  let consN := consRes cfg i * consRes cfg i
  let numel := heads * consN * keyLen cfg
  decide (dim % heads = 0) &&
  (if sr = 1 then
    decide ((N * N) ∣ numel) &&
      (decide (numel / (N * N) = heads) || decide (numel / (N * N) = 1))
  else
    match cfg.window_size.getD i none with
    | none => false
    | some w =>
      let pl := (consRes cfg i / sr) * (consRes cfg i / sr)
      decide (w % 2 = 1) && decide (1 ≤ consRes cfg i / sr) &&
      (decide (consN = N) || decide (consN = 1)) &&
      decide ((N * pl) ∣ numel) &&
      (decide (numel / (N * pl) = heads) || decide (numel / (N * pl) = 1)))

/-- Shape semantics of encoder stage `i` of `forward_features`: patch
embedding (`patch_size*2-1`/`patch_size` at stage 0, `3`/`2` afterwards,
padding `kernel // 2`), then `depths[i]` shape-preserving blocks (admissible
or failing), then norm and the reshape back to `(C, H, W)`. -/
def encStage (cfg : TNConfig) (i : Nat) (s : Nat × Nat × Nat) :
    Option (Nat × Nat × Nat) :=
  let kernel := if i = 0 then 2 * cfg.patch_size - 1 else 3
  let stride := if i = 0 then cfg.patch_size else 2
  let inCh := if i = 0 then cfg.in_chans else cfg.embed_dims.getD (i - 1) 0
  (patchEmbedShape kernel stride (kernel / 2) inCh (cfg.embed_dims.getD i 0) s).bind
    fun t => if stageAttnOk cfg i (t.2.1 * t.2.2) then some t else none

/-- Shape semantics of one iteration of `up_features` (loop index
`i ∈ {0,1,2}`): `up{i+1}` is `ConvTranspose2d(embed_dims[3-i],
embed_dims[2-i], 3, stride 2, padding 1, output_padding 1)` (spatial size
exactly doubles), then channel-concatenation with the skip feature
`features[2-i]` (spatial sizes must agree), then `cov{i+1} =
Conv2d(embed_dims[3-i], embed_dims[2-i], 1)` (the concatenated channel
count must equal its `in_channels`), then the blocks and norm of stage
`3-i` (0-based `2-i`). -/
def decLevel (cfg : TNConfig) (i : Nat) (cur skip : Nat × Nat × Nat) :
    Option (Nat × Nat × Nat) :=
  if cur.1 ≠ cfg.embed_dims.getD (3 - i) 0 then none else
  let h := 2 * cur.2.1
  let w := 2 * cur.2.2
  if skip.2.1 ≠ h ∨ skip.2.2 ≠ w then none else
  if skip.1 + cfg.embed_dims.getD (2 - i) 0 ≠ cfg.embed_dims.getD (3 - i) 0 then none else
  if stageAttnOk cfg (2 - i) (h * w) then
    some (cfg.embed_dims.getD (2 - i) 0, h, w)
  else none

/-- Shape of `up0`: bilinear `nn.Upsample(scale_factor=4)` (LeakyReLU is
shape-preserving). -/
def upsampleShape (scale : Nat) (s : Nat × Nat × Nat) : Nat × Nat × Nat :=
  (s.1, scale * s.2.1, scale * s.2.2)

/-- Shape of `outc = nn.Conv2d(embed_dims[0], 1, kernel_size=1, padding=0)`:
the output channel count is the literal `1` of the source, independent of
`num_classes`. -/
def outcShape (cfg : TNConfig) (s : Nat × Nat × Nat) : Option (Nat × Nat × Nat) :=
  if s.1 = cfg.embed_dims.getD 0 0 then some (1, s.2.1, s.2.2) else none

/-- Attach the (unchanged) batch dimension to a `(C, H, W)` triple. -/
def withB (B : Nat) (s : Nat × Nat × Nat) : Nat × Nat × Nat × Nat :=
  (B, s.1, s.2.1, s.2.2)

/-- Shape trace of `TransNeXt.forward` on an input `[B, C, H, W]`: the four
encoder stage outputs of `forward_features`, the three decoder level
outputs of `up_features`, the `up0` output, and the final `outc` output —
`none` exactly when some tensor operation of the source fails. -/
def forwardTrace (cfg : TNConfig) (B C H W : Nat) :
    Option (List (Nat × Nat × Nat × Nat)) :=
  (encStage cfg 0 (C, H, W)).bind fun s1 =>
  (encStage cfg 1 s1).bind fun s2 =>
  (encStage cfg 2 s2).bind fun s3 =>
  (encStage cfg 3 s3).bind fun s4 =>
  (decLevel cfg 0 s4 s3).bind fun d1 =>
  (decLevel cfg 1 d1 s2).bind fun d2 =>
  (decLevel cfg 2 d2 s1).bind fun d3 =>
  let u := upsampleShape 4 d3
  (outcShape cfg u).bind fun fin =>
  some ([s1, s2, s3, s4, d1, d2, d3, u, fin].map (withB B))

/-- Output shape of `TransNeXt.forward`: the last entry of the trace. -/
def forwardShape (cfg : TNConfig) (B C H W : Nat) :
    Option (Nat × Nat × Nat × Nat) :=
  (forwardTrace cfg B C H W).bind List.getLast?

/-- Configuration built by `transnext_micro` with the driver's defaults:
`TransNeXt(window_size=[3,3,3,None], patch_size=4, embed_dims=[48,96,192,384],
num_heads=[2,4,8,16], mlp_ratios=[8,8,4,4], depths=[2,2,10,2],
sr_ratios=[8,4,2,1])`, keeping the constructor defaults `img_size=256`,
`in_chans=1`, `num_classes=30`, `num_stages=4`. -/
def microConfig : TNConfig where
  img_size := 256
  patch_size := 4
  in_chans := 1
  num_classes := 30
  embed_dims := [48, 96, 192, 384]
  num_heads := [2, 4, 8, 16]
  mlp_ratios := [8, 8, 4, 4]
  depths := [2, 2, 10, 2]
  window_size := [some 3, some 3, some 3, none]
  sr_ratios := [8, 4, 2, 1]
  num_stages := 4

/-- The family of valid configurations: image size a multiple of 32 (so all
five power-of-two downsamplings are exact), the stride-4 stage-0 patch
embedding (`patch_size = 4`, matching the construction-time resolution
schedule `img_size // 2^(i+2)`), channel-doubling embedding dims (required
by the decoder's `cov{i+1} = Conv2d(embed_dims[3-i], embed_dims[2-i], 1)`
applied to the concatenation of two `embed_dims[2-i]`-channel maps), present
window sizes on the three aggregated-attention stages, and the source's
pooling schedule `[8, 4, 2, 1]` (stage 4 using plain attention). -/
def validConfig (m d h1 h2 h3 h4 w1 w2 w3 c nc : Nat) (ml dl : List Nat) : TNConfig where
  img_size := 32 * m
  patch_size := 4
  in_chans := c
  num_classes := nc
  embed_dims := [d, 2 * d, 4 * d, 8 * d]
  num_heads := [h1, h2, h3, h4]
  mlp_ratios := ml
  depths := dl
  window_size := [some w1, some w2, some w3, none]
  sr_ratios := [8, 4, 2, 1]
  num_stages := 4

/-! Embedding of `get_relative_position_cpb` (exact `ℚ` arithmetic in place
of float32).  `F.adaptive_avg_pool1d` of `arange(L)` down to `out` bins takes,
for bin `i`, the mean of the slice `[i*L//out, ceil((i+1)*L/out))`. -/

/-- Start index of adaptive-average-pooling bin `i` (`floor(i*L/out)`). -/
def poolStart (L out i : Nat) : Nat := i * L / out

/-- End index (exclusive) of adaptive-average-pooling bin `i`
(`ceil((i+1)*L/out)`). -/
def poolEnd (L out i : Nat) : Nat := ((i + 1) * L + out - 1) / out

/-- Value of `F.adaptive_avg_pool1d(arange(L), out)` at bin `i`: the mean of
the consecutive integer coordinates of the bin. -/
def pooledCoord (L out i : Nat) : ℚ :=
  (((List.range (poolEnd L out i - poolStart L out i)).map
      (fun j => ((poolStart L out i + j : Nat) : ℚ))).sum) /
    ((poolEnd L out i - poolStart L out i : Nat) : ℚ)

/-- Raw `(Δh, Δw)` entry of `get_relative_position_cpb` before
deduplication, for flattened query index `q` and key index `k` (row-major
meshgrid flattening, so row `q / width`, column `q % width`):
`(axis_q - axis_k) / (pretrain_size - 1) * 8` per axis, the key axis being
the adaptively pooled query axis. -/
def relPair (qsz ksz psz : Nat × Nat) (q k : Nat) : ℚ × ℚ :=
  ((((q / qsz.2 : Nat) : ℚ) - pooledCoord qsz.1 ksz.1 (k / ksz.2)) /
      (((psz.1 : Nat) : ℚ) - 1) * 8,
   (((q % qsz.2 : Nat) : ℚ) - pooledCoord qsz.2 ksz.2 (k % ksz.2)) /
      (((psz.2 : Nat) : ℚ) - 1) * 8)

/-- The flattened list `relative_hw.view(-1, 2)` of all raw offset pairs,
query-major exactly as `torch.stack([relative_h, relative_w], -1)` flattens. -/
def relPairs (qsz ksz psz : Nat × Nat) : List (ℚ × ℚ) :=
  (List.range (qsz.1 * qsz.2)).flatMap fun q =>
    (List.range (ksz.1 * ksz.2)).map (relPair qsz ksz psz q)

/-- Lexicographic row order used by `torch.unique(…, dim=0)` (which returns
the distinct rows sorted). -/
def lexLeQ (a b : ℚ × ℚ) : Bool :=
  decide (a.1 < b.1 ∨ (a.1 = b.1 ∧ a.2 ≤ b.2))

/-- The deduplicated, sorted coordinate table of
`torch.unique(relative_hw, dim=0)`. -/
def uniqueTable (l : List (ℚ × ℚ)) : List (ℚ × ℚ) :=
  (l.dedup).mergeSort lexLeQ

/-- Index of the first occurrence of a row in the table (the
`return_inverse` map of `torch.unique` sends each input row to the position
of its value in the unique table). -/
def rowIndex : List (ℚ × ℚ) → ℚ × ℚ → Nat
  | [], _ => 0
  | x :: xs, r => if x = r then 0 else rowIndex xs r + 1

/-- The `idx_map` returned by `get_relative_position_cpb`: each raw pair is
sent to the row of the unique table holding its value. -/
def idxMap (qsz ksz psz : Nat × Nat) : List Nat :=
  (relPairs qsz ksz psz).map (rowIndex (uniqueTable (relPairs qsz ksz psz)))

/-- Sign-preserving log compression applied to the deduplicated table:
`sign(v) * log2(|v| + 1) / log2(8)`. -/
noncomputable def signLog (x : ℝ) : ℝ :=
  Real.sign x * Real.logb 2 (|x| + 1) / Real.logb 2 8

/-- Componentwise compression of a table row. -/
noncomputable def compressRow (r : ℚ × ℚ) : ℝ × ℝ :=
  (signLog (r.1 : ℝ), signLog (r.2 : ℝ))

/-- The compressed `relative_coords_table` finally returned by
`get_relative_position_cpb`. -/
noncomputable def compressedTable (qsz ksz psz : Nat × Nat) : List (ℝ × ℝ) :=
  (uniqueTable (relPairs qsz ksz psz)).map compressRow

/-! Embedding of `get_seqlen_and_mask`: `F.unfold` of the all-ones
`[1,1,H,W]` grid with kernel `w`, padding `w // 2`, stride 1.  Output column
`p = ph*W + pw` and channel `s = si*w + sj` read the zero-padded grid at
`(ph + si, pw + sj)`, the original grid occupying
`[w//2, w//2 + H) × [w//2, w//2 + W)` of the padded one. -/

/-- Entry `(s, p)` of the unfolded all-ones grid: `1` where the window slot
lands on the original grid, `0` on the zero padding. -/
def padKernelOnes (H W w : Nat) (s p : Nat) : ℚ :=
  if w / 2 ≤ p / W + s / w ∧ p / W + s / w < H + w / 2 ∧
     w / 2 ≤ p % W + s % w ∧ p % W + s % w < W + w / 2 then 1 else 0

/-- The per-position neighbor count `attn_local_length = attn_map.sum(-2)`. -/
def attnLocalLength (H W w p : Nat) : ℚ :=
  ∑ s ∈ Finset.range (w * w), padKernelOnes H W w s p

/-- The padding mask `attn_mask = (attn_map == 0)`, indexed `[p][s]` after
the source's `permute(1, 0)`. -/
def attnMask (H W w p s : Nat) : Bool :=
  decide (padKernelOnes H W w s p = 0)

/-- Geometric in-bounds predicate for window slot `s` of query position `p`:
the neighbor coordinates `(ph + si - w//2, pw + sj - w//2)` lie inside the
`H × W` grid (signed arithmetic, since the offsets can be negative). -/
def nbrInBounds (H W w p s : Nat) : Prop :=
  0 ≤ ((p / W + s / w : Nat) : Int) - ((w / 2 : Nat) : Int) ∧
  ((p / W + s / w : Nat) : Int) - ((w / 2 : Nat) : Int) < (H : Int) ∧
  0 ≤ ((p % W + s % w : Nat) : Int) - ((w / 2 : Nat) : Int) ∧
  ((p % W + s % w : Nat) : Int) - ((w / 2 : Nat) : Int) < (W : Int)

instance (H W w p s : Nat) : Decidable (nbrInBounds H W w p s) := by
  unfold nbrInBounds; infer_instance

/-! Embedding of the softmax rows of `Attention.forward` and
`AggregatedAttention.forward`.  A masked score (`masked_fill(padding_mask,
float('-inf'))`) is represented as `none`, whose exponential weight is `0`. -/

/-- Exponential weight of a possibly masked score. -/
noncomputable def expVal : Option ℝ → ℝ
  | none => 0
  | some x => Real.exp x

/-- Softmax along a row of possibly masked scores. -/
noncomputable def softmaxRow (row : List (Option ℝ)) : List ℝ :=
  row.map fun s => expVal s / (row.map expVal).sum

/-- Apply the local padding mask: `masked_fill` sends the flagged slots to
`-inf` (here: `none`). -/
def maskRow (scores : List ℝ) (mask : List Bool) : List (Option ℝ) :=
  List.zipWith (fun sc m => if m then none else some sc) scores mask

/-- One query row of `AggregatedAttention.forward`:
`torch.cat([attn_local, attn_pool], dim=-1).softmax(dim=-1)` with the local
part masked by `padding_mask`. -/
noncomputable def aggAttnRow (localScores : List ℝ) (mask : List Bool)
    (poolScores : List ℝ) : List ℝ :=
  softmaxRow (maskRow localScores mask ++ poolScores.map some)

/-- One query row of `Attention.forward`: plain softmax over all `N` keys. -/
noncomputable def plainAttnRow (scores : List ℝ) : List ℝ :=
  softmaxRow (scores.map some)

/-! Embedding of the constructor assertions (C6). -/

/-- Whether an `Except` result is a success. -/
def isOkE : Except String Unit → Bool
  | .ok _ => true
  | .error _ => false

/-- The assertions of `AggregatedAttention.__init__`:
`assert dim % num_heads == 0` and `assert window_size % 2 == 1`, with the
source's messages. -/
def aggAttnInitCheck (dim numHeads windowSize : Nat) : Except String Unit :=
  if dim % numHeads ≠ 0 then
    .error ("dim " ++ toString dim ++ " should be divided by num_heads " ++
      toString numHeads ++ ".")
  else if windowSize % 2 ≠ 1 then
    .error "window size must be odd"
  else .ok ()

/-- The assertion of `Attention.__init__`: `assert dim % num_heads == 0`. -/
def attnInitCheck (dim numHeads : Nat) : Except String Unit :=
  if dim % numHeads ≠ 0 then
    .error ("dim " ++ toString dim ++ " should be divided by num_heads " ++
      toString numHeads ++ ".")
  else .ok ()

/-- The assertion of `OverlapPatchEmbed.__init__`:
`assert max(patch_size) > stride`. -/
def patchEmbedInitCheck (patchH patchW stride : Nat) : Except String Unit :=
  if max patchH patchW > stride then .ok ()
  else .error "Set larger patch_size than stride"

/-! Embedding of the stochastic pieces for the determinism claim (C9).  The
deterministic sub-computations (linear layers, convolutions, norms,
activations) are opaque to randomness, so they enter as plain function
parameters; the random draws of `nn.Dropout` and `timm`'s `DropPath` are
made explicit noise-stream inputs. -/

/-- The Bernoulli draws consumed by one `Block`: the two per-sample
path-drop coins and the elementwise dropout masks of the attention
(`attn_drop`, `proj_drop`) and of the `ConvolutionalGLU` (two `drop`
sites). -/
structure NoiseB where
  pathAttn : Bool
  pathMlp : Bool
  attnNoise : Nat → Bool
  projNoise : Nat → Bool
  mlpNoise1 : Nat → Bool
  mlpNoise2 : Nat → Bool

/-- `nn.Dropout(p)`: identity in eval mode or at rate `0`; in training each
element is zeroed where the noise draw fires and the rest are scaled by
`1/(1-p)`. -/
def dropoutL (training : Bool) (p : ℚ) (noise : Nat → Bool) (x : List ℚ) :
    List ℚ :=
  if training = true ∧ 0 < p then
    x.mapIdx fun i v => if noise i then 0 else v / (1 - p)
  else x

/-- `DropPath(p)` as built by `Block.__init__` (`nn.Identity` when `p = 0`):
in training the whole branch is zeroed or kept-and-rescaled per sample. -/
def dropPathL (training : Bool) (p : ℚ) (keep : Bool) (x : List ℚ) : List ℚ :=
  if p = 0 ∨ training = false then x
  else if keep then x.map fun v => v / (1 - p)
  else x.map fun _ => 0

/-- Elementwise residual addition. -/
def addL (x y : List ℚ) : List ℚ := List.zipWith (· + ·) x y

/-- The deterministic sub-maps of one `Block`: attention up to its
`attn_drop` site, the output projection, the GLU body up to its first
`drop` site, and `fc2`.  (Norms are folded into the cores.) -/
structure BlockFuns where
  attnCore : List ℚ → List ℚ
  attnProj : List ℚ → List ℚ
  mlpCore : List ℚ → List ℚ
  mlpProj : List ℚ → List ℚ

/-- `Block.forward`: `x + drop_path(attn(norm1 x))` then
`x + drop_path(mlp(norm2 x))`, with every dropout site of the source made
explicit. -/
def blockForwardN (bf : BlockFuns) (training : Bool) (drop attnDrop dp : ℚ)
    (ns : NoiseB) (x : List ℚ) : List ℚ :=
  let a := dropoutL training drop ns.projNoise
    (bf.attnProj (dropoutL training attnDrop ns.attnNoise (bf.attnCore x)))
  let x1 := addL x (dropPathL training dp ns.pathAttn a)
  let m := dropoutL training drop ns.mlpNoise2
    (bf.mlpProj (dropoutL training drop ns.mlpNoise1 (bf.mlpCore x1)))
  addL x1 (dropPathL training dp ns.pathMlp m)

/-- A stage's block list (each block with its own `drop_path` rate from the
`dpr` schedule), fed from a per-block noise stream. -/
def runBlocksN (training : Bool) (drop attnDrop : ℚ) :
    List (BlockFuns × ℚ) → (Nat → NoiseB) → List ℚ → List ℚ
  | [], _, x => x
  | (bf, dp) :: bs, ns, x =>
    runBlocksN training drop attnDrop bs (fun n => ns (n + 1))
      (blockForwardN bf training drop attnDrop dp (ns 0) x)

/-- `TransNeXt.forward` through the stochastic lens: a sequence of stages
(each a deterministic embedding/up-projection map followed by its block
list) and a deterministic tail (`up0` + `outc`), threaded with a per-stage,
per-block noise source. -/
def tnForwardN (training : Bool) (drop attnDrop : ℚ) :
    List ((List ℚ → List ℚ) × List (BlockFuns × ℚ)) → (Nat → Nat → NoiseB) →
      (List ℚ → List ℚ) → List ℚ → List ℚ
  | [], _, tail, x => tail x
  | (embed, blks) :: ss, noise, tail, x =>
    tnForwardN training drop attnDrop ss (fun i => noise (i + 1)) tail
      (runBlocksN training drop attnDrop blks (noise 0) (embed x))

/-! Embedding of the encoder/decoder module table for the weight-sharing
claim (C10).  `TransNeXt.__init__` registers `block1 … block4` and
`norm1 … norm4`; `forward_features` fetches `block{i+1}` / `norm{i+1}` and
`up_features` fetches `block{3-i}` / `norm{3-i}` from the very same
attribute table, so both paths run the identical module objects. -/

/-- The named module table of the model over an abstract token type: the
four registered block lists and norms (each block a token map, its
parameters folded in). -/
structure TNModules (α : Type) where
  block1 : List (α → α)
  block2 : List (α → α)
  block3 : List (α → α)
  block4 : List (α → α)
  norm1 : α → α
  norm2 : α → α
  norm3 : α → α
  norm4 : α → α

/-- `getattr(self, "block" + str(j))`. -/
def getBlock {α : Type} (m : TNModules α) : Nat → List (α → α)
  | 1 => m.block1
  | 2 => m.block2
  | 3 => m.block3
  | 4 => m.block4
  | _ => []

/-- `getattr(self, "norm" + str(j))`. -/
def getNorm {α : Type} (m : TNModules α) : Nat → (α → α)
  | 1 => m.norm1
  | 2 => m.norm2
  | 3 => m.norm3
  | 4 => m.norm4
  | _ => id

/-- Run a block list followed by the final norm (the token-level body shared
by `forward_features` and `up_features`). -/
def runStage {α : Type} (blocks : List (α → α)) (norm : α → α) (x : α) : α :=
  norm (blocks.foldl (fun y f => f y) x)

/-- The block list used by encoder stage loop index `i` in
`forward_features`: `block{i+1}`. -/
def encoderStageBlocks {α : Type} (m : TNModules α) (i : Nat) : List (α → α) :=
  getBlock m (i + 1)

/-- The block list used by decoder loop index `i` in `up_features`:
`block{3-i}`. -/
def decoderLevelBlocks {α : Type} (m : TNModules α) (i : Nat) : List (α → α) :=
  getBlock m (3 - i)

/-- The token-level block+norm computation of encoder stage loop index `i`. -/
def encoderStageRun {α : Type} (m : TNModules α) (i : Nat) (x : α) : α :=
  runStage (getBlock m (i + 1)) (getNorm m (i + 1)) x

/-- The token-level block+norm computation of decoder loop index `i`. -/
def decoderLevelRun {α : Type} (m : TNModules α) (i : Nat) (x : α) : α :=
  runStage (getBlock m (3 - i)) (getNorm m (3 - i)) x

/-- Noise-free normal form of one block: both residual branches applied with
all dropout sites inactive. -/
def blockPure (bf : BlockFuns) (x : List ℚ) : List ℚ :=
  let x1 := addL x (bf.attnProj (bf.attnCore x))
  addL x1 (bf.mlpProj (bf.mlpCore x1))

/-- Sample block functions for concrete instantiation. -/
def wBlock : BlockFuns := ⟨id, id, id, id⟩

/-- A noise assignment whose draws all fire. -/
def wNoiseOn : NoiseB :=
  ⟨true, true, fun _ => true, fun _ => true, fun _ => true, fun _ => true⟩

/-- A noise assignment whose draws never fire. -/
def wNoiseOff : NoiseB :=
  ⟨false, false, fun _ => false, fun _ => false, fun _ => false, fun _ => false⟩

/-- A concrete module table for instantiation. -/
def sampleModules : TNModules Nat where
  block1 := [fun x => x + 1]
  block2 := [fun x => x + 2]
  block3 := [fun x => x + 3]
  block4 := [fun x => x + 4]
  norm1 := fun x => 10 * x
  norm2 := fun x => 20 * x
  norm3 := fun x => 30 * x
  norm4 := fun x => 40 * x

/-! Theorems. -/

/-- C2: feeding a `[1, 1, 256, 256]` input through the smallest configured
variant (`transnext_micro`: 4 stages, depths `[2,2,10,2]`, embedding dims
`[48,96,192,384]`, patch size 4, window sizes `[3,3,3,none]`, pooling
ratios `[8,4,2,1]`) yields an output of shape `[1, 1, 256, 256]` after the
final 1×1 projection `outc`. -/
theorem C2_micro_end_to_end :
    forwardShape microConfig 1 1 256 256 = some (1, 1, 256, 256) := by
  decide

/-- C1 counterexample: on the micro configuration (whose configured number
of output classes is the default `num_classes = 30`) the forward output has
1 channel, not `num_classes` channels — `outc` is `Conv2d(embed_dims[0], 1,
1)`, its output channel count is the hard-coded literal `1`. -/
theorem C1_counterexample :
    forwardShape microConfig 1 1 256 256 ≠
      some (1, microConfig.num_classes, 256, 256) := by
  decide

/-- C3 (amended): changing `num_classes` alone changes nothing at all in
the forward shape semantics — not even the final projection's output
channel count, which is the constant 1; every stage, decoder and upsample
shape is unchanged because the forward path never reads `num_classes`. -/
theorem C3_num_classes_frame (cfg : TNConfig) (n B C H W : Nat) :
    forwardTrace { cfg with num_classes := n } B C H W =
        forwardTrace cfg B C H W ∧
      forwardShape { cfg with num_classes := n } B C H W =
        forwardShape cfg B C H W :=
  ⟨rfl, rfl⟩

/-- C3 counterexample: the claim as stated says changing `num_classes`
changes the output channel count of the final 1×1 projection; but two
configurations differing only in `num_classes` (30 vs 5) produce identical
outputs — the channel count does not change. -/
theorem C3_counterexample :
    forwardShape { microConfig with num_classes := 5 } 1 1 256 256 =
        forwardShape microConfig 1 1 256 256 ∧
      ({ microConfig with num_classes := 5 } : TNConfig).num_classes ≠
        microConfig.num_classes := by
  exact ⟨rfl, by decide⟩

/-- C6: construction fails fast with a descriptive error exactly when the
channel count is not divisible by the head count (`AggregatedAttention` and
`Attention`), the local window size is even (`AggregatedAttention`), or the
patch size does not exceed the stride (`OverlapPatchEmbed`); on the
complementary conditions construction succeeds, so nothing is silently
truncated or rounded. -/
theorem C6_construction_fail_fast (dim heads w ph pw stride : Nat) :
    (isOkE (aggAttnInitCheck dim heads w) = true ↔
      (dim % heads = 0 ∧ w % 2 = 1)) ∧
    (isOkE (attnInitCheck dim heads) = true ↔ dim % heads = 0) ∧
    (isOkE (patchEmbedInitCheck ph pw stride) = true ↔ stride < max ph pw) ∧
    (dim % heads ≠ 0 →
      aggAttnInitCheck dim heads w =
        .error ("dim " ++ toString dim ++ " should be divided by num_heads "
          ++ toString heads ++ ".")) ∧
    (dim % heads = 0 → w % 2 = 0 →
      aggAttnInitCheck dim heads w = .error "window size must be odd") ∧
    (max ph pw ≤ stride →
      patchEmbedInitCheck ph pw stride =
        .error "Set larger patch_size than stride") := by
  refine ⟨?_, ?_, ?_, ?_, ?_, ?_⟩
  · unfold aggAttnInitCheck isOkE
    split_ifs with h1 h2 <;> simp_all
  · unfold attnInitCheck isOkE
    split_ifs with h1 <;> simp_all
  · unfold patchEmbedInitCheck isOkE
    split_ifs with h1 <;> simp_all
  · intro h; unfold aggAttnInitCheck; simp [h]
  · intro h1 h2; unfold aggAttnInitCheck
    have : ¬ (w % 2 = 1) := by omega
    simp [h1, this]
  · intro h; unfold patchEmbedInitCheck
    have : ¬ (max ph pw > stride) := by omega
    simp [this]

/-- Witness for C6 at a concrete invalid configuration: `dim = 6` is not
divisible by `num_heads = 4`, and construction reports exactly that. -/
theorem C6_witness :
    aggAttnInitCheck 6 4 3 =
      .error ("dim " ++ toString 6 ++ " should be divided by num_heads "
        ++ toString 4 ++ ".") :=
  (C6_construction_fail_fast 6 4 3 3 3 4).2.2.2.1 (by decide)

/-- C10: at decoder level `lvl ∈ {1,2,3}` (loop index `lvl - 1`),
`up_features` fetches `block{3-(lvl-1)}` and `norm{3-(lvl-1)}` — the very
attribute slots that encoder stage `4-lvl` (loop index `3-lvl`) uses in
`forward_features` — so the decoder applies the encoder's own block
sequence and final norm, the same modules rather than copies, and on every
token input the decoder-level computation equals the encoder-stage
computation. -/
theorem C10_decoder_weight_sharing {α : Type} (mdl : TNModules α) (lvl : Nat)
    (h1 : 1 ≤ lvl) (h3 : lvl ≤ 3) :
    decoderLevelBlocks mdl (lvl - 1) = encoderStageBlocks mdl (3 - lvl) ∧
    ∀ x : α, decoderLevelRun mdl (lvl - 1) x = encoderStageRun mdl (3 - lvl) x := by
  interval_cases lvl <;> exact ⟨rfl, fun _ => rfl⟩

/-- Witness for C10 at decoder level 1 on a concrete module table. -/
theorem C10_witness :
    decoderLevelBlocks sampleModules 0 = encoderStageBlocks sampleModules 2 ∧
    ∀ x : Nat, decoderLevelRun sampleModules 0 x = encoderStageRun sampleModules 2 x :=
  C10_decoder_weight_sharing sampleModules 1 (by decide) (by decide)

lemma dropoutL_eval (p : ℚ) (noise : Nat → Bool) (x : List ℚ) :
    dropoutL false p noise x = x := by
  simp [dropoutL]

lemma dropoutL_zero (training : Bool) (noise : Nat → Bool) (x : List ℚ) :
    dropoutL training 0 noise x = x := by
  simp [dropoutL]

lemma dropPathL_eval (p : ℚ) (keep : Bool) (x : List ℚ) :
    dropPathL false p keep x = x := by
  simp [dropPathL]

lemma dropPathL_zero (training : Bool) (keep : Bool) (x : List ℚ) :
    dropPathL training 0 keep x = x := by
  simp [dropPathL]

lemma blockForwardN_eval (bf : BlockFuns) (drop attnDrop dp : ℚ) (ns : NoiseB)
    (x : List ℚ) : blockForwardN bf false drop attnDrop dp ns x = blockPure bf x := by
  simp [blockForwardN, blockPure, dropoutL_eval, dropPathL_eval]

lemma blockForwardN_zero (bf : BlockFuns) (ns : NoiseB) (x : List ℚ) :
    blockForwardN bf true 0 0 0 ns x = blockPure bf x := by
  simp [blockForwardN, blockPure, dropoutL_zero, dropPathL_zero]

lemma runBlocksN_eval (drop attnDrop : ℚ) (blks : List (BlockFuns × ℚ))
    (n1 n2 : Nat → NoiseB) (x : List ℚ) :
    runBlocksN false drop attnDrop blks n1 x = runBlocksN false drop attnDrop blks n2 x := by
  induction blks generalizing n1 n2 x with
  | nil => rfl
  | cons b bs ih =>
    obtain ⟨bf, dp⟩ := b
    simp only [runBlocksN, blockForwardN_eval]
    exact ih _ _ _

lemma runBlocksN_zero (blks : List (BlockFuns × ℚ)) (n1 n2 : Nat → NoiseB)
    (x : List ℚ) (h : ∀ bp ∈ blks, bp.2 = 0) :
    runBlocksN true 0 0 blks n1 x = runBlocksN true 0 0 blks n2 x := by
  induction blks generalizing n1 n2 x with
  | nil => rfl
  | cons b bs ih =>
    obtain ⟨bf, dp⟩ := b
    have hdp : dp = 0 := h (bf, dp) (List.mem_cons_self _ _)
    subst hdp
    simp only [runBlocksN, blockForwardN_zero]
    exact ih _ _ _ fun bp hbp => h bp (List.mem_cons_of_mem _ hbp)

lemma tnForwardN_eval (drop attnDrop : ℚ)
    (stages : List ((List ℚ → List ℚ) × List (BlockFuns × ℚ)))
    (tail : List ℚ → List ℚ) (x : List ℚ) (n1 n2 : Nat → Nat → NoiseB) :
    tnForwardN false drop attnDrop stages n1 tail x =
      tnForwardN false drop attnDrop stages n2 tail x := by
  induction stages generalizing n1 n2 x with
  | nil => rfl
  | cons s ss ih =>
    obtain ⟨embed, blks⟩ := s
    simp only [tnForwardN]
    rw [runBlocksN_eval drop attnDrop blks (n1 0) (n2 0)]
    exact ih _ _ _

lemma tnForwardN_zero (stages : List ((List ℚ → List ℚ) × List (BlockFuns × ℚ)))
    (tail : List ℚ → List ℚ) (x : List ℚ) (n1 n2 : Nat → Nat → NoiseB)
    (h : ∀ sb ∈ stages, ∀ bp ∈ sb.2, bp.2 = 0) :
    tnForwardN true 0 0 stages n1 tail x = tnForwardN true 0 0 stages n2 tail x := by
  induction stages generalizing n1 n2 x with
  | nil => rfl
  | cons s ss ih =>
    obtain ⟨embed, blks⟩ := s
    simp only [tnForwardN]
    rw [runBlocksN_zero blks (n1 0) (n2 0) _
      (h (embed, blks) (List.mem_cons_self _ _))]
    exact ih _ _ _ fun sb hsb => h sb (List.mem_cons_of_mem _ hsb)

/-- C9: with dropout and stochastic path-drop disabled — eval mode, or
training mode with every dropout rate and every per-block path-drop rate
equal to 0 — the forward computation does not depend on the random draws:
two calls on the same input with the same parameters but arbitrary
different noise streams produce identical output, i.e. forward is a
deterministic function of input and parameters. -/
theorem C9_forward_deterministic
    (stages : List ((List ℚ → List ℚ) × List (BlockFuns × ℚ)))
    (tail : List ℚ → List ℚ) (drop attnDrop : ℚ) (x : List ℚ)
    (n1 n2 : Nat → Nat → NoiseB) :
    (tnForwardN false drop attnDrop stages n1 tail x =
        tnForwardN false drop attnDrop stages n2 tail x) ∧
      ((drop = 0 ∧ attnDrop = 0 ∧ ∀ sb ∈ stages, ∀ bp ∈ sb.2, bp.2 = 0) →
        tnForwardN true drop attnDrop stages n1 tail x =
          tnForwardN true drop attnDrop stages n2 tail x) := by
  refine ⟨tnForwardN_eval drop attnDrop stages tail x n1 n2, ?_⟩
  rintro ⟨rfl, rfl, h⟩
  exact tnForwardN_zero stages tail x n1 n2 h

/-- Witness for C9: a one-stage, one-block model in training mode with all
rates 0, under a noise stream whose draws all fire versus one whose draws
never fire. -/
theorem C9_witness :
    tnForwardN true 0 0 [(id, [(wBlock, 0)])] (fun _ _ => wNoiseOn) id [1] =
      tnForwardN true 0 0 [(id, [(wBlock, 0)])] (fun _ _ => wNoiseOff) id [1] :=
  (C9_forward_deterministic [(id, [(wBlock, 0)])] id 0 0 [1]
      (fun _ _ => wNoiseOn) (fun _ _ => wNoiseOff)).2
    ⟨rfl, rfl, by
      intro sb hsb bp hbp
      simp only [List.mem_singleton] at hsb
      subst hsb
      simp only [List.mem_singleton] at hbp
      subst hbp
      rfl⟩

lemma expVal_nonneg (s : Option ℝ) : 0 ≤ expVal s := by
  cases s with
  | none => simp [expVal]
  | some x => exact (Real.exp_pos x).le

lemma sum_expVal_div (l : List (Option ℝ)) (T : ℝ) :
    (l.map fun s => expVal s / T).sum = (l.map expVal).sum / T := by
  induction l with
  | nil => simp
  | cons a l ih => simp [ih, add_div]

lemma sum_expVal_nonneg (l : List (Option ℝ)) : 0 ≤ (l.map expVal).sum := by
  refine List.sum_nonneg ?_
  intro x hx
  obtain ⟨s, _, rfl⟩ := List.mem_map.mp hx
  exact expVal_nonneg s

lemma softmaxRow_sum (row : List (Option ℝ)) (h : 0 < (row.map expVal).sum) :
    (softmaxRow row).sum = 1 := by
  unfold softmaxRow
  rw [sum_expVal_div]
  exact div_self (ne_of_gt h)

lemma mapSome_total_pos (ps : List ℝ) (hp : ps ≠ []) :
    0 < ((ps.map some).map expVal).sum := by
  obtain ⟨p, tl, rfl⟩ := List.exists_cons_of_ne_nil hp
  simp only [List.map_cons, List.sum_cons, expVal]
  exact add_pos_of_pos_of_nonneg (Real.exp_pos p) (sum_expVal_nonneg _)

lemma aggRow_total_pos (ls : List ℝ) (mask : List Bool) (ps : List ℝ)
    (hp : ps ≠ []) :
    0 < ((maskRow ls mask ++ ps.map some).map expVal).sum := by
  rw [List.map_append, List.sum_append]
  exact add_pos_of_nonneg_of_pos (sum_expVal_nonneg _) (mapSome_total_pos ps hp)

lemma maskRow_getD_none (ls : List ℝ) (mask : List Bool) (i : Nat)
    (hi : i < ls.length) (hm : mask.getD i false = true) :
    (maskRow ls mask).getD i (some 0) = none := by
  induction ls generalizing mask i with
  | nil => simp at hi
  | cons a as ih =>
    cases mask with
    | nil => simp at hm
    | cons m ms =>
      cases i with
      | zero =>
        simp only [List.getD_cons_zero] at hm
        simp [maskRow, hm]
      | succ j =>
        simp only [List.getD_cons_succ] at hm ⊢
        simp only [maskRow, List.zipWith_cons_cons, List.getD_cons_succ]
        exact ih ms j (by simpa using hi) hm

lemma aggRow_masked_zero (ls : List ℝ) (mask : List Bool) (ps : List ℝ) (i : Nat)
    (hlen : mask.length = ls.length) (hi : i < ls.length)
    (hm : mask.getD i false = true) :
    (aggAttnRow ls mask ps).getD i 0 = 0 := by
  have hmr : (maskRow ls mask).length = ls.length := by
    simp [maskRow, List.length_zipWith, hlen]
  have hrow : i < (maskRow ls mask ++ List.map some ps).length := by
    rw [List.length_append, hmr]; omega
  have hmap : i < ((maskRow ls mask ++ List.map some ps).map
      (fun s => expVal s /
        ((maskRow ls mask ++ List.map some ps).map expVal).sum)).length := by
    simpa using hrow
  unfold aggAttnRow softmaxRow
  rw [List.getD_eq_getElem _ _ hmap, List.getElem_map]
  have hilt : i < (maskRow ls mask).length := hmr ▸ hi
  have hnone : (maskRow ls mask ++ List.map some ps)[i] = none := by
    rw [List.getElem_append_left hilt]
    have hg := maskRow_getD_none ls mask i hi hm
    rwa [List.getD_eq_getElem _ _ hilt] at hg
  rw [hnone]
  simp [expVal]

/-- C4: the attention weights produced after softmax sum to 1 over the full
key axis — over the concatenated `local_len + pool_len` keys in aggregated
attention (every masked local slot, sent to `-inf` by `masked_fill`,
receiving weight exactly 0), and over all `N` keys in plain attention.  The
pooled key list is non-empty (`pool_len ≥ 1`), so the row never consists of
`-inf` alone. -/
theorem C4_softmax_mass (localScores poolScores scores : List ℝ)
    (mask : List Bool) (hlen : mask.length = localScores.length)
    (hpool : poolScores ≠ []) (hplain : scores ≠ []) :
    (aggAttnRow localScores mask poolScores).sum = 1 ∧
    (∀ i, i < localScores.length → mask.getD i false = true →
      (aggAttnRow localScores mask poolScores).getD i 0 = 0) ∧
    (plainAttnRow scores).sum = 1 := by
  refine ⟨?_, ?_, ?_⟩
  · exact softmaxRow_sum _ (aggRow_total_pos localScores mask poolScores hpool)
  · intro i hi hm
    exact aggRow_masked_zero localScores mask poolScores i hlen hi hm
  · exact softmaxRow_sum _ (mapSome_total_pos scores hplain)

/-- Witness for C4: a two-slot local row whose first slot is masked, one
pooled key, and a one-key plain row. -/
theorem C4_witness :
    (aggAttnRow [1, 2] [true, false] [3]).sum = 1 ∧
    (∀ i, i < ([1, 2] : List ℝ).length → [true, false].getD i false = true →
      (aggAttnRow [1, 2] [true, false] [3]).getD i 0 = 0) ∧
    (plainAttnRow [5]).sum = 1 :=
  C4_softmax_mass [1, 2] [3] [5] [true, false] rfl (by simp) (by simp)

/-- C8 counterexample: the claim quantifies over every odd window size, but
for `w = 1` on a 2×2 grid the corner query position has exactly
`w² = 1` valid neighbor (itself), not strictly fewer — the kernel lies
entirely in bounds because `w // 2 = 0` adds no padding ring. -/
theorem C8_counterexample :
    ¬ attnLocalLength 2 2 1 0 < ((1 * 1 : Nat) : ℚ) := by
  have h : attnLocalLength 2 2 1 0 = 1 := by
    show (∑ s ∈ Finset.range (1 * 1), padKernelOnes 2 2 1 s 0) = 1
    rw [show (1 * 1) = 1 from rfl, Finset.sum_range_one]
    norm_num [padKernelOnes]
  rw [h]
  norm_num

/-- C8 (amended): for every grid resolution and every odd window size
`w ≥ 3`, the corner query position `p = 0` has strictly fewer than `w²`
valid neighbors according to `attn_local_length`, and the boolean padding
mask is true exactly on the out-of-bounds neighbor slots of each position
(for `w = 1` the corner count equals `w²`, so the strict bound needs
`w ≥ 3`; the mask characterization holds regardless). -/
theorem C8_window_geometry (H W w : Nat) (hH : 1 ≤ H) (hW : 1 ≤ W)
    (hodd : w % 2 = 1) (hw3 : 3 ≤ w) :
    attnLocalLength H W w 0 < ((w * w : Nat) : ℚ) ∧
    ∀ p s, p < H * W → s < w * w →
      (attnMask H W w p s = true ↔ ¬ nbrInBounds H W w p s) := by
  constructor
  · unfold attnLocalLength padKernelOnes
    have hcast : ((w * w : Nat) : ℚ) = (((Finset.range (w * w)).card : Nat) : ℚ) := by
      simp
    rw [Finset.sum_boole, hcast, Nat.cast_lt]
    apply Finset.card_lt_card
    rw [Finset.filter_ssubset]
    refine ⟨0, Finset.mem_range.mpr (Nat.mul_pos (by omega) (by omega)), ?_⟩
    intro hcond
    obtain ⟨h1, _⟩ := hcond
    simp only [Nat.zero_div] at h1
    omega
  · intro p s _ _
    unfold attnMask padKernelOnes nbrInBounds
    generalize p / W + s / w = a
    generalize p % W + s % w = b
    by_cases hc : (w / 2 ≤ a ∧ a < H + w / 2 ∧ w / 2 ≤ b ∧ b < W + w / 2)
    · rw [if_pos hc]
      simp only [decide_eq_true_eq]
      constructor
      · intro h10
        exact absurd h10 (by norm_num)
      · intro hn
        exact absurd (by omega) hn
    · rw [if_neg hc]
      simp only [decide_eq_true_eq]
      constructor
      · intro _
        intro hn
        exact hc (by omega)
      · intro _
        trivial

lemma poolStart_self (n i : Nat) (hn : 1 ≤ n) : poolStart n n i = i := by
  unfold poolStart
  exact Nat.mul_div_cancel i (by omega)

lemma poolEnd_self (n i : Nat) (hn : 1 ≤ n) : poolEnd n n i = i + 1 := by
  unfold poolEnd
  have h1 : (i + 1) * n + n - 1 = n * (i + 1) + (n - 1) := by ring_nf; omega
  rw [h1, Nat.mul_add_div (by omega), Nat.div_eq_of_lt (by omega)]

lemma pooledCoord_self (n i : Nat) (hn : 1 ≤ n) : pooledCoord n n i = (i : ℚ) := by
  unfold pooledCoord
  rw [poolStart_self n i hn, poolEnd_self n i hn,
    show i + 1 - i = 1 by omega]
  simp [List.range_succ]

/-- C7: with identical query and key grid resolutions `(n, n)` the adaptive
pooling of the key axis is the identity, so the raw offset field of
`get_relative_position_cpb` before deduplication is antisymmetric: the
`(Δh, Δw)` pair for `(q, k)` is the negation of the pair for `(k, q)`. -/
theorem C7_antisymmetry (n ph pw q k : Nat) (hn : 1 ≤ n)
    (hq : q < n * n) (hk : k < n * n) :
    relPair (n, n) (n, n) (ph, pw) q k =
      (-(relPair (n, n) (n, n) (ph, pw) k q).1,
       -(relPair (n, n) (n, n) (ph, pw) k q).2) := by
  unfold relPair
  simp only [pooledCoord_self n _ hn]
  rw [Prod.mk.injEq]
  constructor <;> ring

/-- Witness for C7 on the 2×2 grid with pretraining size 3, at positions
`q = 1`, `k = 2`. -/
theorem C7_witness :
    relPair (2, 2) (2, 2) (3, 3) 1 2 =
      (-(relPair (2, 2) (2, 2) (3, 3) 2 1).1,
       -(relPair (2, 2) (2, 2) (3, 3) 2 1).2) :=
  C7_antisymmetry 2 3 3 1 2 (by decide) (by decide) (by decide)

lemma signLog_aux_strictMono :
    StrictMono (fun x : ℝ => Real.sign x * Real.logb 2 (|x| + 1)) := by
  intro a b hab
  simp only
  rcases lt_trichotomy a 0 with ha | ha | ha
  · rw [Real.sign_of_neg ha, abs_of_neg ha]
    rcases lt_trichotomy b 0 with hb | hb | hb
    · rw [Real.sign_of_neg hb, abs_of_neg hb]
      have h := Real.logb_lt_logb (b := 2) (x := -b + 1) (y := -a + 1)
        (by norm_num) (by linarith) (by linarith)
      linarith
    · subst hb
      rw [Real.sign_zero]
      have h : 0 < Real.logb 2 (-a + 1) := Real.logb_pos (by norm_num) (by linarith)
      nlinarith
    · rw [Real.sign_of_pos hb, abs_of_pos hb]
      have h1 : 0 < Real.logb 2 (-a + 1) := Real.logb_pos (by norm_num) (by linarith)
      have h2 : 0 ≤ Real.logb 2 (b + 1) := Real.logb_nonneg (by norm_num) (by linarith)
      linarith
  · subst ha
    rw [Real.sign_zero, Real.sign_of_pos hab, abs_of_pos hab]
    have h : 0 < Real.logb 2 (b + 1) := Real.logb_pos (by norm_num) (by linarith)
    nlinarith
  · have hb : 0 < b := lt_trans ha hab
    rw [Real.sign_of_pos ha, abs_of_pos ha, Real.sign_of_pos hb, abs_of_pos hb]
    have h := Real.logb_lt_logb (b := 2) (x := a + 1) (y := b + 1)
      (by norm_num) (by linarith) (by linarith)
    linarith

lemma logb_two_eight : Real.logb 2 8 = 3 := by
  rw [show (8 : ℝ) = 2 ^ (3 : ℕ) by norm_num, Real.logb_pow]
  simp [Real.logb_self_eq_one]

lemma signLog_injective : Function.Injective signLog := by
  have hmono : StrictMono signLog := by
    intro a b hab
    unfold signLog
    rw [logb_two_eight]
    have h := signLog_aux_strictMono hab
    simp only at h
    linarith
  exact hmono.injective

lemma compressRow_injective : Function.Injective compressRow := by
  intro a b h
  unfold compressRow at h
  obtain ⟨h1, h2⟩ := Prod.mk.injEq _ _ _ _ |>.mp h
  have e1 : (a.1 : ℝ) = (b.1 : ℝ) := signLog_injective h1
  have e2 : (a.2 : ℝ) = (b.2 : ℝ) := signLog_injective h2
  have f1 : a.1 = b.1 := by exact_mod_cast e1
  have f2 : a.2 = b.2 := by exact_mod_cast e2
  exact Prod.ext f1 f2

lemma rowIndex_lt_length (t : List (ℚ × ℚ)) (r : ℚ × ℚ) (h : r ∈ t) :
    rowIndex t r < t.length := by
  induction t with
  | nil => simp at h
  | cons x xs ih =>
    by_cases hx : x = r
    · simp [rowIndex, hx]
    · rcases List.mem_cons.mp h with h1 | h1
      · exact absurd h1.symm hx
      · simp only [rowIndex, if_neg hx, List.length_cons]
        exact Nat.succ_lt_succ (ih h1)

lemma mem_uniqueTable {l : List (ℚ × ℚ)} {r : ℚ × ℚ} (h : r ∈ l) :
    r ∈ uniqueTable l := by
  unfold uniqueTable
  rw [(List.mergeSort_perm _ _).mem_iff]
  exact List.mem_dedup.mpr h

lemma uniqueTable_nodup (l : List (ℚ × ℚ)) : (uniqueTable l).Nodup := by
  unfold uniqueTable
  exact ((List.mergeSort_perm _ _).nodup_iff).mpr (List.nodup_dedup l)

/-- C5: for every query, key and pretraining grid size, the deduplicated
coordinate table of `get_relative_position_cpb` contains no two identical
rows, this distinctness survives the sign-preserving log compression
(which is injective), and every value of the returned index map is
strictly below the number of table rows. -/
theorem C5_table_invariants (qh qw kh kw ph pw : Nat)
    (hq1 : 1 ≤ qh) (hq2 : 1 ≤ qw) (hk1 : 1 ≤ kh) (hk2 : 1 ≤ kw)
    (hp1 : 2 ≤ ph) (hp2 : 2 ≤ pw) :
    (uniqueTable (relPairs (qh, qw) (kh, kw) (ph, pw))).Nodup ∧
    (compressedTable (qh, qw) (kh, kw) (ph, pw)).Nodup ∧
    ∀ v ∈ idxMap (qh, qw) (kh, kw) (ph, pw),
      v < (uniqueTable (relPairs (qh, qw) (kh, kw) (ph, pw))).length := by
  refine ⟨uniqueTable_nodup _, ?_, ?_⟩
  · unfold compressedTable
    exact (uniqueTable_nodup _).map compressRow_injective
  · intro v hv
    unfold idxMap at hv
    obtain ⟨r, hr, rfl⟩ := List.mem_map.mp hv
    exact rowIndex_lt_length _ _ (mem_uniqueTable hr)

/-- Witness for C5 on a 2×2 query grid pooled to a 1×1 key grid with
pretraining size 2. -/
theorem C5_witness :
    (uniqueTable (relPairs (2, 2) (1, 1) (2, 2))).Nodup ∧
    (compressedTable (2, 2) (1, 1) (2, 2)).Nodup ∧
    ∀ v ∈ idxMap (2, 2) (1, 1) (2, 2),
      v < (uniqueTable (relPairs (2, 2) (1, 1) (2, 2))).length :=
  C5_table_invariants 2 2 1 1 2 2 (by decide) (by decide) (by decide)
    (by decide) (by decide) (by decide)

/-- Witness for C8 on a 2×2 grid with window size 3. -/
theorem C8_witness :
    attnLocalLength 2 2 3 0 < ((3 * 3 : Nat) : ℚ) ∧
    ∀ p s, p < 2 * 2 → s < 3 * 3 →
      (attnMask 2 2 3 p s = true ↔ ¬ nbrInBounds 2 2 3 p s) :=
  C8_window_geometry 2 2 3 (by decide) (by decide) (by decide) (by decide)

lemma conv2dOut_stage0 (m : Nat) (hm : 1 ≤ m) : conv2dOut (32 * m) 7 4 3 = some (8 * m) := by
  unfold conv2dOut
  rw [if_neg (by omega)]
  congr 1
  omega

lemma conv2dOut_half (n : Nat) (hn : 1 ≤ n) : conv2dOut (2 * n) 3 2 1 = some n := by
  unfold conv2dOut
  rw [if_neg (by omega)]
  congr 1
  omega

lemma stageOk0 (m d h1 h2 h3 h4 w1 w2 w3 c nc : Nat) (ml dl : List Nat) (hm : 1 ≤ m)
    (hd1 : d % h1 = 0) (hw1 : w1 % 2 = 1) :
    stageAttnOk (validConfig m d h1 h2 h3 h4 w1 w2 w3 c nc ml dl) 0 (8 * m * (8 * m)) = true := by
  have hK : 0 < 8 * m * (8 * m) * (m * m) :=
    Nat.mul_pos (Nat.mul_pos (by omega) (by omega)) (Nat.mul_pos (by omega) (by omega))
  simp only [stageAttnOk, validConfig, consRes, keyLen, List.getD]
  norm_num
  rw [show 32 * m / 4 = 8 * m by omega, show 8 * m / 8 = m by omega]
  refine ⟨hd1, ⟨⟨⟨hw1, by omega⟩, Or.inl rfl⟩, ⟨h1, by ring⟩⟩, Or.inl ?_⟩
  rw [show h1 * (8 * m * (8 * m)) * (m * m) = 8 * m * (8 * m) * (m * m) * h1 by ring]
  exact Nat.mul_div_cancel_left h1 hK

lemma stageOk1 (m d h1 h2 h3 h4 w1 w2 w3 c nc : Nat) (ml dl : List Nat) (hm : 1 ≤ m)
    (hd2 : 2 * d % h2 = 0) (hw2 : w2 % 2 = 1) :
    stageAttnOk (validConfig m d h1 h2 h3 h4 w1 w2 w3 c nc ml dl) 1 (4 * m * (4 * m)) = true := by
  have hK : 0 < 4 * m * (4 * m) * (m * m) :=
    Nat.mul_pos (Nat.mul_pos (by omega) (by omega)) (Nat.mul_pos (by omega) (by omega))
  simp only [stageAttnOk, validConfig, consRes, keyLen, List.getD]
  norm_num
  rw [show 32 * m / 8 = 4 * m by omega, show 4 * m / 4 = m by omega]
  refine ⟨hd2, ⟨⟨⟨hw2, by omega⟩, Or.inl rfl⟩, ⟨h2, by ring⟩⟩, Or.inl ?_⟩
  rw [show h2 * (4 * m * (4 * m)) * (m * m) = 4 * m * (4 * m) * (m * m) * h2 by ring]
  exact Nat.mul_div_cancel_left h2 hK

lemma stageOk2 (m d h1 h2 h3 h4 w1 w2 w3 c nc : Nat) (ml dl : List Nat) (hm : 1 ≤ m)
    (hd3 : 4 * d % h3 = 0) (hw3 : w3 % 2 = 1) :
    stageAttnOk (validConfig m d h1 h2 h3 h4 w1 w2 w3 c nc ml dl) 2 (2 * m * (2 * m)) = true := by
  have hK : 0 < 2 * m * (2 * m) * (m * m) :=
    Nat.mul_pos (Nat.mul_pos (by omega) (by omega)) (Nat.mul_pos (by omega) (by omega))
  simp only [stageAttnOk, validConfig, consRes, keyLen, List.getD]
  norm_num
  rw [show 32 * m / 16 = 2 * m by omega, show 2 * m / 2 = m by omega]
  refine ⟨hd3, ⟨⟨⟨hw3, by omega⟩, Or.inl rfl⟩, ⟨h3, by ring⟩⟩, Or.inl ?_⟩
  rw [show h3 * (2 * m * (2 * m)) * (m * m) = 2 * m * (2 * m) * (m * m) * h3 by ring]
  exact Nat.mul_div_cancel_left h3 hK

lemma stageOk3 (m d h1 h2 h3 h4 w1 w2 w3 c nc : Nat) (ml dl : List Nat) (hm : 1 ≤ m)
    (hd4 : 8 * d % h4 = 0) :
    stageAttnOk (validConfig m d h1 h2 h3 h4 w1 w2 w3 c nc ml dl) 3 (m * m) = true := by
  have hK : 0 < m * m * (m * m) :=
    Nat.mul_pos (Nat.mul_pos (by omega) (by omega)) (Nat.mul_pos (by omega) (by omega))
  simp only [stageAttnOk, validConfig, consRes, keyLen, List.getD]
  norm_num
  refine ⟨hd4, ⟨h4, by ring⟩, Or.inl ?_⟩
  rw [show h4 * (m * m) * (m * m) = m * m * (m * m) * h4 by ring]
  exact Nat.mul_div_cancel_left h4 hK

lemma vc_patch (m d h1 h2 h3 h4 w1 w2 w3 c nc : Nat) (ml dl : List Nat) :
    (validConfig m d h1 h2 h3 h4 w1 w2 w3 c nc ml dl).patch_size = 4 := rfl

lemma vc_chans (m d h1 h2 h3 h4 w1 w2 w3 c nc : Nat) (ml dl : List Nat) :
    (validConfig m d h1 h2 h3 h4 w1 w2 w3 c nc ml dl).in_chans = c := rfl

lemma vc_dims (m d h1 h2 h3 h4 w1 w2 w3 c nc : Nat) (ml dl : List Nat) :
    (validConfig m d h1 h2 h3 h4 w1 w2 w3 c nc ml dl).embed_dims = [d, 2 * d, 4 * d, 8 * d] := rfl

lemma encStage0_eval (m d h1 h2 h3 h4 w1 w2 w3 c nc : Nat) (ml dl : List Nat) (hm : 1 ≤ m)
    (hd1 : d % h1 = 0) (hw1 : w1 % 2 = 1) :
    encStage (validConfig m d h1 h2 h3 h4 w1 w2 w3 c nc ml dl) 0 (c, 32 * m, 32 * m) =
      some (d, 8 * m, 8 * m) := by
  simp only [encStage, patchEmbedShape, vc_patch, vc_chans, vc_dims, List.getD]
  norm_num
  rw [conv2dOut_stage0 m hm]
  simp [stageOk0 m d h1 h2 h3 h4 w1 w2 w3 c nc ml dl hm hd1 hw1]

lemma conv2dOut_8m (m : Nat) (hm : 1 ≤ m) : conv2dOut (8 * m) 3 2 1 = some (4 * m) := by
  rw [show (8 : Nat) * m = 2 * (4 * m) by ring]
  exact conv2dOut_half (4 * m) (by omega)

lemma conv2dOut_4m (m : Nat) (hm : 1 ≤ m) : conv2dOut (4 * m) 3 2 1 = some (2 * m) := by
  rw [show (4 : Nat) * m = 2 * (2 * m) by ring]
  exact conv2dOut_half (2 * m) (by omega)

lemma conv2dOut_2m (m : Nat) (hm : 1 ≤ m) : conv2dOut (2 * m) 3 2 1 = some m :=
  conv2dOut_half m hm

lemma encStage1_eval (m d h1 h2 h3 h4 w1 w2 w3 c nc : Nat) (ml dl : List Nat) (hm : 1 ≤ m)
    (hd2 : 2 * d % h2 = 0) (hw2 : w2 % 2 = 1) :
    encStage (validConfig m d h1 h2 h3 h4 w1 w2 w3 c nc ml dl) 1 (d, 8 * m, 8 * m) =
      some (2 * d, 4 * m, 4 * m) := by
  simp only [encStage, patchEmbedShape, vc_patch, vc_chans, vc_dims, List.getD]
  norm_num
  rw [conv2dOut_8m m hm]
  simp [stageOk1 m d h1 h2 h3 h4 w1 w2 w3 c nc ml dl hm hd2 hw2]

lemma encStage2_eval (m d h1 h2 h3 h4 w1 w2 w3 c nc : Nat) (ml dl : List Nat) (hm : 1 ≤ m)
    (hd3 : 4 * d % h3 = 0) (hw3 : w3 % 2 = 1) :
    encStage (validConfig m d h1 h2 h3 h4 w1 w2 w3 c nc ml dl) 2 (2 * d, 4 * m, 4 * m) =
      some (4 * d, 2 * m, 2 * m) := by
  simp only [encStage, patchEmbedShape, vc_patch, vc_chans, vc_dims, List.getD]
  norm_num
  rw [conv2dOut_4m m hm]
  simp [stageOk2 m d h1 h2 h3 h4 w1 w2 w3 c nc ml dl hm hd3 hw3]

lemma encStage3_eval (m d h1 h2 h3 h4 w1 w2 w3 c nc : Nat) (ml dl : List Nat) (hm : 1 ≤ m)
    (hd4 : 8 * d % h4 = 0) :
    encStage (validConfig m d h1 h2 h3 h4 w1 w2 w3 c nc ml dl) 3 (4 * d, 2 * m, 2 * m) =
      some (8 * d, m, m) := by
  simp only [encStage, patchEmbedShape, vc_patch, vc_chans, vc_dims, List.getD]
  norm_num
  rw [conv2dOut_2m m hm]
  have hs := stageOk3 m d h1 h2 h3 h4 w1 w2 w3 c nc ml dl hm hd4
  simp [hs]

lemma decLevel0_eval (m d h1 h2 h3 h4 w1 w2 w3 c nc : Nat) (ml dl : List Nat) (hm : 1 ≤ m)
    (hd3 : 4 * d % h3 = 0) (hw3 : w3 % 2 = 1) :
    decLevel (validConfig m d h1 h2 h3 h4 w1 w2 w3 c nc ml dl) 0 (8 * d, m, m)
        (4 * d, 2 * m, 2 * m) = some (4 * d, 2 * m, 2 * m) := by
  have hs := stageOk2 m d h1 h2 h3 h4 w1 w2 w3 c nc ml dl hm hd3 hw3
  simp only [decLevel, vc_dims, List.getD]
  norm_num [hs, show (4 : Nat) * d + 4 * d = 8 * d from by ring]

lemma decLevel1_eval (m d h1 h2 h3 h4 w1 w2 w3 c nc : Nat) (ml dl : List Nat) (hm : 1 ≤ m)
    (hd2 : 2 * d % h2 = 0) (hw2 : w2 % 2 = 1) :
    decLevel (validConfig m d h1 h2 h3 h4 w1 w2 w3 c nc ml dl) 1 (4 * d, 2 * m, 2 * m)
        (2 * d, 4 * m, 4 * m) = some (2 * d, 4 * m, 4 * m) := by
  have hs := stageOk1 m d h1 h2 h3 h4 w1 w2 w3 c nc ml dl hm hd2 hw2
  simp only [decLevel, vc_dims, List.getD]
  norm_num [hs, show (2 : Nat) * (2 * m) = 4 * m from by ring,
    show (2 : Nat) * d + 2 * d = 4 * d from by ring]

lemma decLevel2_eval (m d h1 h2 h3 h4 w1 w2 w3 c nc : Nat) (ml dl : List Nat) (hm : 1 ≤ m)
    (hd1 : d % h1 = 0) (hw1 : w1 % 2 = 1) :
    decLevel (validConfig m d h1 h2 h3 h4 w1 w2 w3 c nc ml dl) 2 (2 * d, 4 * m, 4 * m)
        (d, 8 * m, 8 * m) = some (d, 8 * m, 8 * m) := by
  have hs := stageOk0 m d h1 h2 h3 h4 w1 w2 w3 c nc ml dl hm hd1 hw1
  simp only [decLevel, vc_dims, List.getD]
  norm_num [hs, show (2 : Nat) * (4 * m) = 8 * m from by ring,
    show d + d = 2 * d from by ring]

/-- C1 (amended): for every valid configuration — 4 stages, `patch_size = 4`,
`img_size = 32 m`, channel-doubling embedding dims with each stage's head
count dividing its dim, odd window sizes, pooling ratios `[8,4,2,1]` — and
every input batch `[B, in_chans, H, W]` with `H = W = img_size`, the forward
operation returns a tensor of shape `(B, 1, H, W)`: the spatial dimensions
equal the input's, but the output channel count is the constant `1` of
`outc = Conv2d(embed_dims[0], 1, 1)`, not the configured `num_classes`. -/
theorem C1_forward_output_shape (m d h1 h2 h3 h4 w1 w2 w3 c nc B : Nat)
    (ml dl : List Nat) (hm : 1 ≤ m)
    (hd1 : d % h1 = 0) (hd2 : 2 * d % h2 = 0) (hd3 : 4 * d % h3 = 0) (hd4 : 8 * d % h4 = 0)
    (hw1 : w1 % 2 = 1) (hw2 : w2 % 2 = 1) (hw3 : w3 % 2 = 1) :
    forwardShape (validConfig m d h1 h2 h3 h4 w1 w2 w3 c nc ml dl) B c (32 * m) (32 * m) =
      some (B, 1, 32 * m, 32 * m) := by
  unfold forwardShape forwardTrace
  rw [encStage0_eval m d h1 h2 h3 h4 w1 w2 w3 c nc ml dl hm hd1 hw1]
  simp only [Option.some_bind]
  rw [encStage1_eval m d h1 h2 h3 h4 w1 w2 w3 c nc ml dl hm hd2 hw2]
  simp only [Option.some_bind]
  rw [encStage2_eval m d h1 h2 h3 h4 w1 w2 w3 c nc ml dl hm hd3 hw3]
  simp only [Option.some_bind]
  rw [encStage3_eval m d h1 h2 h3 h4 w1 w2 w3 c nc ml dl hm hd4]
  simp only [Option.some_bind]
  rw [decLevel0_eval m d h1 h2 h3 h4 w1 w2 w3 c nc ml dl hm hd3 hw3]
  simp only [Option.some_bind]
  rw [decLevel1_eval m d h1 h2 h3 h4 w1 w2 w3 c nc ml dl hm hd2 hw2]
  simp only [Option.some_bind]
  rw [decLevel2_eval m d h1 h2 h3 h4 w1 w2 w3 c nc ml dl hm hd1 hw1]
  simp only [Option.some_bind, upsampleShape, outcShape, vc_dims, List.getD, withB]
  norm_num
  simp only [withB]
  norm_num
  omega

/-- Witness for C1 (amended) at the micro configuration's numbers:
`m = 8` (image size 256), dims `48, 96, 192, 384`, heads `2, 4, 8, 16`,
window size 3 everywhere, one input channel, 30 classes, batch 1. -/
theorem C1_witness :
    forwardShape (validConfig 8 48 2 4 8 16 3 3 3 1 30 [8, 8, 4, 4] [2, 2, 10, 2])
        1 1 (32 * 8) (32 * 8) = some (1, 1, 32 * 8, 32 * 8) :=
  C1_forward_output_shape 8 48 2 4 8 16 3 3 3 1 30 1 [8, 8, 4, 4] [2, 2, 10, 2]
    (by decide) (by decide) (by decide) (by decide) (by decide)
    (by decide) (by decide) (by decide)

end TNUnet
